import Mathlib

/-!
Shallow embedding of the offline-first synchronization engine of the
laxmishree factory data-entry application (the `AppProvider` component,
newest revision), together with theorems settling the specification's
claims about it.  The data model follows `src/lib/types.ts`; the engine
follows the provider implementation: `syncOrQueue`, `addRecord`,
`updateRecord`, `deleteRecord`, `processPending`, the initial-merge in
`setupSubscriptions`, the realtime `postgres_changes` handler,
`updateSettings` and `deleteAllData`.
-/

namespace LaxmiShree

/-- Connection status of the remote client (`SupabaseStatus` in the source). -/
inductive SupabaseStatus where
  | disconnected
  | connected
  | reconnecting
deriving DecidableEq, Repr

/-- The shift enumeration of a record (`'Day' | 'Night'` in `src/lib/types.ts`). -/
inductive Shift where
  | day
  | night
deriving DecidableEq, Repr

/-- A loom record (`LoomRecord` in `src/lib/types.ts`).  The TS `number`
field `weftMeter` is modelled as `Rat`; `stops` is a non-negative count. -/
structure LoomRecord where
  id : String
  date : String
  time : String
  shift : Shift
  machineNo : String
  stops : Nat
  weftMeter : Rat
  total : String
  run : String
deriving DecidableEq, Repr

/-- The fields of a record other than its id (`Omit<LoomRecord, 'id'>`),
as passed to `addRecord`. -/
structure RecordFields where
  date : String
  time : String
  shift : Shift
  machineNo : String
  stops : Nat
  weftMeter : Rat
  total : String
  run : String
deriving DecidableEq, Repr

/-- Attach an id to record fields (`{ ...record, id: crypto.randomUUID() }`). -/
def mkRecord (id : String) (f : RecordFields) : LoomRecord :=
  { id := id, date := f.date, time := f.time, shift := f.shift, machineNo := f.machineNo,
    stops := f.stops, weftMeter := f.weftMeter, total := f.total, run := f.run }

/-- The application settings singleton (`AppSettings` in `src/lib/types.ts`). -/
structure AppSettings where
  totalMachines : Nat
  lowEfficiencyThreshold : Nat
  geminiApiKey : String
  whatsAppNumber : String
  messageTemplate : String
  supabaseUrl : String
  supabaseKey : String
deriving DecidableEq, Repr

/-- Default settings object (`DEFAULT_SETTINGS` in `src/lib/types.ts`). -/
def DEFAULT_SETTINGS : AppSettings :=
  { totalMachines := 10
    lowEfficiencyThreshold := 90
    geminiApiKey := ""
    whatsAppNumber := ""
    messageTemplate := "Record Details:\nDate: \x7b\x7bdate\x7d\x7d\nTime: \x7b\x7btime\x7d\x7d\nShift: \x7b\x7bshift\x7d\x7d\nMachine: \x7b\x7bmachineNo\x7d\x7d\nEfficiency: \x7b\x7befficiency\x7d\x7d%"
    supabaseUrl := ""
    supabaseKey := "" }

/-- A pending operation (`PendingSyncOperation` in the provider): a tagged union of
`add`/`update` (carrying a record) and `delete` (carrying an id). -/
inductive PendingSyncOperation where
  | add (record : LoomRecord)
  | update (record : LoomRecord)
  | delete (id : String)
deriving DecidableEq, Repr

/-- The record id an operation refers to
(`(op as any).record?.id || op.id` in the source). -/
def PendingSyncOperation.opId : PendingSyncOperation → String
  | .add r => r.id
  | .update r => r.id
  | .delete i => i

/-- Whether an operation is an `add`. -/
def PendingSyncOperation.isAdd : PendingSyncOperation → Bool
  | .add _ => true
  | _ => false

/-- The provider state: the React state variables (`records`, `settings`,
`pendingSync`, `supabaseStatus`), the refs (`isSyncing`, `activeSyncIds`,
`initialDataFetched`), and the localStorage copies written by the
persistence effect (one per storage key). -/
structure AppState where
  records : List LoomRecord
  settings : AppSettings
  pendingSync : List PendingSyncOperation
  supabaseStatus : SupabaseStatus
  isSyncing : Bool
  activeSyncIds : List String
  initialDataFetched : Bool
  storedRecords : List LoomRecord
  storedPending : List PendingSyncOperation
  storedSettings : AppSettings
deriving DecidableEq, Repr

/-- The provider state right after first mount with empty localStorage. -/
def initialAppState : AppState :=
  { records := []
    settings := DEFAULT_SETTINGS
    pendingSync := []
    supabaseStatus := .disconnected
    isSyncing := false
    activeSyncIds := []
    initialDataFetched := false
    storedRecords := []
    storedPending := []
    storedSettings := DEFAULT_SETTINGS }

/-- Queueing function `syncOrQueue` from the newest provider revision: remove every queued
operation for the same record id, then append the new operation.  The
persistence effect re-saves the queue, so the stored copy follows. -/
def syncOrQueue (op : PendingSyncOperation) (s : AppState) : AppState :=
  let pend := (s.pendingSync.filter (fun p => p.opId ≠ op.opId)) ++ [op]
  { s with pendingSync := pend, storedPending := pend }

/-- Mutation `addRecord`: append a record made of the given fields and the freshly
generated id, then queue an `add`.  The id generated by
`crypto.randomUUID()` is a parameter of the model. -/
def addRecord (f : RecordFields) (freshId : String) (s : AppState) : AppState :=
  let newRecord := mkRecord freshId f
  let recs := s.records ++ [newRecord]
  syncOrQueue (.add newRecord) { s with records := recs, storedRecords := recs }

/-- Mutation `updateRecord`: replace the record whose id matches, then queue an
`update`. -/
def updateRecord (r : LoomRecord) (s : AppState) : AppState :=
  let recs := s.records.map (fun x => if x.id = r.id then r else x)
  syncOrQueue (.update r) { s with records := recs, storedRecords := recs }

/-- Mutation `deleteRecord`: remove the record whose id matches, then queue a
`delete`. -/
def deleteRecord (id : String) (s : AppState) : AppState :=
  let recs := s.records.filter (fun x => x.id ≠ id)
  syncOrQueue (.delete id) { s with records := recs, storedRecords := recs }

/-- One call to the mutation router, with the fresh id that `addRecord`
would draw from `crypto.randomUUID()` made explicit. -/
inductive MutationCall where
  | add (f : RecordFields) (freshId : String)
  | update (r : LoomRecord)
  | delete (id : String)
deriving DecidableEq, Repr

/-- Dispatch one mutation call to the corresponding router function. -/
def applyCall : MutationCall → AppState → AppState
  | .add f freshId, s => addRecord f freshId s
  | .update r, s => updateRecord r s
  | .delete i, s => deleteRecord i s

/-- Run a sequence of mutation-router calls in order. -/
def runCalls (calls : List MutationCall) (s : AppState) : AppState :=
  calls.foldl (fun st c => applyCall c st) s

/-- The effect of one call on the record list as the specification words
it: `addRecord` appends a record with the given fields and the fresh id,
`updateRecord` replaces the record with the matching id, `deleteRecord`
removes it.  Stated separately from the source-derived router so the two
can be compared. -/
def specRecordEffect : MutationCall → List LoomRecord → List LoomRecord
  | .add f freshId, rs => rs ++ [mkRecord freshId f]
  | .update r, rs => rs.map (fun x => if x.id = r.id then r else x)
  | .delete i, rs => rs.filter (fun x => x.id ≠ i)

/-- Outcome of one remote apply call (`upsert`/`delete`) made by the
drain.  The error split mirrors the specification's taxonomy: transport
errors are retryable, remote rejections are not.  The source catches
both the same way; keeping them distinct lets that be stated. -/
inductive ApplyOutcome where
  | ok
  | retryableError
  | nonRetryableError
deriving DecidableEq, Repr

/-- The `for (const op of pendingSync)` loop of `processPending`.  The
first component threads `remainingOps` (ops whose id is currently in
`activeSyncIds` are skipped; on success the op is filtered out of
`remainingOps`; on any error it is left in place).  The second component
is the trace of operations for which a remote call was issued, in order. -/
def processLoop (f : PendingSyncOperation → ApplyOutcome) (activeIds : List String) :
    List PendingSyncOperation → List PendingSyncOperation →
    List PendingSyncOperation × List PendingSyncOperation
  | [], remaining => (remaining, [])
  | op :: rest, remaining =>
    if op.opId ∈ activeIds then
      processLoop f activeIds rest remaining
    else
      match f op with
      | .ok =>
        let res := processLoop f activeIds rest (remaining.filter (fun x => x ≠ op))
        (res.1, op :: res.2)
      | _ =>
        let res := processLoop f activeIds rest remaining
        (res.1, op :: res.2)

/-- Drain function `processPending` from the newest provider revision.  Guard: a drain
already in progress (`isSyncing.current`) or an empty queue returns at
once with no remote calls.  Otherwise the loop runs over the queue,
`pendingSync` is set to the remaining ops, and `isSyncing` ends `false`
(each loop iteration adds the op's id to `activeSyncIds` before its
remote call and deletes it in `finally`, so the set is unchanged when
the drain returns).  The second component is the trace of remote calls. -/
def processPending (f : PendingSyncOperation → ApplyOutcome) (s : AppState) :
    AppState × List PendingSyncOperation :=
  if s.isSyncing = true ∨ s.pendingSync = [] then (s, [])
  else
    let res := processLoop f s.activeSyncIds s.pendingSync s.pendingSync
    ({ s with pendingSync := res.1, storedPending := res.1, isSyncing := false }, res.2)

/-- A realtime `postgres_changes` event on the records table, with the
new row for insert/update and the deleted row's id for delete. -/
inductive RealtimeEvent where
  | insert (record : LoomRecord)
  | update (record : LoomRecord)
  | delete (id : String)
deriving DecidableEq, Repr

/-- The record id an event refers to
(`(payload.new)?.id || (payload.old)?.id` in the handler). -/
def RealtimeEvent.eventId : RealtimeEvent → String
  | .insert r => r.id
  | .update r => r.id
  | .delete i => i

/-- Replace the first record whose id matches (the handler writes the new
row at `existingIndex`, the index found by `findIndex`). -/
def replaceFirstById (r : LoomRecord) : List LoomRecord → List LoomRecord
  | [] => []
  | x :: xs => if x.id = r.id then r :: xs else x :: replaceFirstById r xs

/-- The body of the records-channel handler once past the suppression
check: insert/update writes the row over the record with the same id or
pushes it; delete filters the id out. -/
def applyRealtimeEvent : RealtimeEvent → List LoomRecord → List LoomRecord
  | .insert r, recs =>
    if recs.any (fun x => x.id = r.id) then replaceFirstById r recs else recs ++ [r]
  | .update r, recs =>
    if recs.any (fun x => x.id = r.id) then replaceFirstById r recs else recs ++ [r]
  | .delete i, recs => recs.filter (fun x => x.id ≠ i)

/-- The records-channel `postgres_changes` handler: an event whose id is
in `activeSyncIds` returns without touching state; otherwise the event
is applied to `records` (and the persistence effect re-saves them). -/
def handleRecordsEvent (ev : RealtimeEvent) (s : AppState) : AppState :=
  if ev.eventId ∈ s.activeSyncIds then s
  else
    let recs := applyRealtimeEvent ev s.records
    { s with records := recs, storedRecords := recs }

/-- A JavaScript `Map.set` keyed by record id: overwrite in place when
the key is present (keeping its insertion position), append otherwise. -/
def mapInsert (m : List LoomRecord) (r : LoomRecord) : List LoomRecord :=
  if m.any (fun x => x.id = r.id) then m.map (fun x => if x.id = r.id then r else x)
  else m ++ [r]

/-- Values of `new Map(list.map(r => [r.id, r]))`:
replay the list through `mapInsert`, so a later entry with a repeated id
overwrites the earlier one in place. -/
def jsMapOf (rs : List LoomRecord) : List LoomRecord :=
  rs.foldl mapInsert []

/-- The initial merge of `setupSubscriptions`:
`new Map([...localRecordsMap, ...remoteRecordsMap]).values()` —
build the id-keyed map of the local records, then of the remote records,
spread the local entries before the remote ones into a fresh map and take
its values.  A remote entry therefore overwrites a local entry with the
same id, and local-only entries remain. -/
def mergeRecords (localRecs remoteRecs : List LoomRecord) : List LoomRecord :=
  jsMapOf (jsMapOf localRecs ++ jsMapOf remoteRecs)

/-- The settings row selected from the remote `settings` table
(`total_machines, low_efficiency_threshold, whatsapp_number,
message_template`). -/
structure RemoteSettingsRow where
  total_machines : Nat
  low_efficiency_threshold : Nat
  whatsapp_number : String
  message_template : String
deriving DecidableEq, Repr

/-- Outcome of the remote settings fetch: either a row (or none, when the
table has no row yet), or an error with a PostgREST error code. -/
inductive SettingsFetchResult where
  | ok (data : Option RemoteSettingsRow)
  | err (code : String)
deriving DecidableEq, Repr

/-- Merge a fetched settings row over the previous settings (the
`transformedSettings` spread in `setupSubscriptions`). -/
def applyRemoteSettings (prev : AppSettings) (row : RemoteSettingsRow) : AppSettings :=
  { prev with
    totalMachines := row.total_machines
    lowEfficiencyThreshold := row.low_efficiency_threshold
    whatsAppNumber := row.whatsapp_number
    messageTemplate := row.message_template }

/-- Tail of `setupSubscriptions` after the initial fetch: drain the
pending queue, set status `connected`, then subscribe the channels; a
subscription error reported by the channel callback sets
`disconnected`. -/
def setupAfterFetch (f : PendingSyncOperation → ApplyOutcome) (subErr : Bool)
    (s : AppState) : AppState :=
  let s1 := (processPending f s).1
  let s2 := { s1 with supabaseStatus := SupabaseStatus.connected }
  if subErr then { s2 with supabaseStatus := SupabaseStatus.disconnected } else s2

/-- Records half of the initial fetch: an error is thrown to the catch
branch, which sets `disconnected`; on success the remote rows are merged
with the local records via `mergeRecords`, persisted, and
`initialDataFetched` is set. -/
def setupFetchRecords (recordsRes : Except Unit (List LoomRecord))
    (f : PendingSyncOperation → ApplyOutcome) (subErr : Bool) (s : AppState) : AppState :=
  match recordsRes with
  | .error _ => { s with supabaseStatus := SupabaseStatus.disconnected }
  | .ok remote =>
    let merged := mergeRecords s.records remote
    setupAfterFetch f subErr
      { s with records := merged, storedRecords := merged, initialDataFetched := true }

/-- Connection setup `setupSubscriptions` of the newest provider revision, with the
results of the two remote fetches, the drain's apply outcomes and the
subscription outcome supplied as parameters.  Status goes to
`reconnecting` first; a settings fetch error other than `PGRST116`
(row absent) is thrown to the catch branch, which sets `disconnected`
and ends the attempt — there is no retry inside the attempt. -/
def setupSubscriptions (settingsRes : SettingsFetchResult)
    (recordsRes : Except Unit (List LoomRecord))
    (f : PendingSyncOperation → ApplyOutcome) (subErr : Bool) (s0 : AppState) : AppState :=
  let s := { s0 with supabaseStatus := SupabaseStatus.reconnecting }
  if s.initialDataFetched then setupAfterFetch f subErr s
  else
    match settingsRes with
    | .err c =>
      if c = "PGRST116" then setupFetchRecords recordsRes f subErr s
      else { s with supabaseStatus := SupabaseStatus.disconnected }
    | .ok none => setupFetchRecords recordsRes f subErr s
    | .ok (some row) =>
      let merged := applyRemoteSettings s.settings row
      setupFetchRecords recordsRes f subErr
        { s with settings := merged, storedSettings := merged }

/-- Argument type of `updateSettings` (`Partial<AppSettings>`). -/
structure SettingsPatch where
  totalMachines : Option Nat := none
  lowEfficiencyThreshold : Option Nat := none
  geminiApiKey : Option String := none
  whatsAppNumber : Option String := none
  messageTemplate : Option String := none
  supabaseUrl : Option String := none
  supabaseKey : Option String := none
deriving DecidableEq, Repr

/-- Spread merge `{ ...settings, ...newSettings }`: fields present in the patch win. -/
def mergeSettings (prev : AppSettings) (p : SettingsPatch) : AppSettings :=
  { totalMachines := p.totalMachines.getD prev.totalMachines
    lowEfficiencyThreshold := p.lowEfficiencyThreshold.getD prev.lowEfficiencyThreshold
    geminiApiKey := p.geminiApiKey.getD prev.geminiApiKey
    whatsAppNumber := p.whatsAppNumber.getD prev.whatsAppNumber
    messageTemplate := p.messageTemplate.getD prev.messageTemplate
    supabaseUrl := p.supabaseUrl.getD prev.supabaseUrl
    supabaseKey := p.supabaseKey.getD prev.supabaseKey }

/-- The `settingsToSave` object upserted to the remote `settings` table:
an explicit whitelist of columns (`id`, `total_machines`,
`low_efficiency_threshold`, `whatsapp_number`, `message_template`). -/
structure SettingsPayload where
  id : String
  total_machines : Nat
  low_efficiency_threshold : Nat
  whatsapp_number : String
  message_template : String
deriving DecidableEq, Repr

/-- Fixed key `GLOBAL_SETTINGS_ID` of the settings singleton. -/
def GLOBAL_SETTINGS_ID : String := "global_settings"

/-- Build the remote settings payload from the merged settings. -/
def settingsToSave (s : AppSettings) : SettingsPayload :=
  { id := GLOBAL_SETTINGS_ID
    total_machines := s.totalMachines
    low_efficiency_threshold := s.lowEfficiencyThreshold
    whatsapp_number := s.whatsAppNumber
    message_template := s.messageTemplate }

/-- Mutation `updateSettings`: merge the patch, set and persist the new settings,
and — only while `connected` — emit the whitelisted payload for the
remote upsert (second component; `none` means no remote call). -/
def updateSettings (p : SettingsPatch) (s : AppState) : AppState × Option SettingsPayload :=
  let updated := mergeSettings s.settings p
  let s1 := { s with settings := updated, storedSettings := updated }
  if s.supabaseStatus = SupabaseStatus.connected then (s1, some (settingsToSave updated))
  else (s1, none)

/-- Bulk erase `deleteAllData`: clear the records and the pending queue (the
persistence effect re-saves both).  The remote bulk delete happens only
while connected and is not queued; settings are not touched. -/
def deleteAllData (s : AppState) : AppState :=
  { s with records := [], pendingSync := [], storedRecords := [], storedPending := [] }

/-!  Concrete sample data, used by witnesses and counterexamples. -/

/-- Sample record fields (the scenario of §8 of the specification). -/
def sampleFields : RecordFields :=
  { date := "2024-01-01", time := "08:00", shift := .day, machineNo := "3",
    stops := 2, weftMeter := 120, total := "08:00:00", run := "07:30:00" }

/-- Sample record with id `"a"`. -/
def sampleRecord : LoomRecord := mkRecord "a" sampleFields

/-- The same id `"a"` with different contents (stops 99). -/
def sampleRecord2 : LoomRecord := { sampleRecord with stops := 99 }

/-- A record with a different id `"b"`. -/
def sampleRecordB : LoomRecord := { sampleRecord with id := "b", stops := 5 }

/-- A state holding one record and one queued update for it, with no
drain in flight (`activeSyncIds` empty). -/
def queuedState : AppState :=
  { initialAppState with
    records := [sampleRecord]
    pendingSync := [.update sampleRecord]
    storedRecords := [sampleRecord]
    storedPending := [.update sampleRecord]
    supabaseStatus := .connected }

/-- The same state while its queued operation's remote call is in flight. -/
def inflightState : AppState := { queuedState with activeSyncIds := ["a"] }

/-- A state whose drain flag is set (a drain pass is in progress). -/
def syncingState : AppState := { queuedState with isSyncing := true }

/-- A state whose settings differ from the defaults. -/
def customSettingsState : AppState :=
  { initialAppState with settings := { DEFAULT_SETTINGS with totalMachines := 5 } }

/-- C9 counterexample: `deleteAllData` does not reset the settings
singleton to its defaults — on a state whose `totalMachines` is 5 the
settings after the wipe still hold 5, while the default is 10. -/
theorem deleteAllData_leaves_settings_cex :
    (deleteAllData customSettingsState).settings.totalMachines = 5 ∧
    DEFAULT_SETTINGS.totalMachines = 10 ∧
    (deleteAllData customSettingsState).settings ≠ DEFAULT_SETTINGS := by
  refine ⟨rfl, rfl, fun h => ?_⟩
  exact absurd (congrArg AppSettings.totalMachines h) (by decide)

/-- C9 (amended): `deleteAllData` empties the record set and the pending
queue (and their persisted copies), queues nothing for offline replay,
and leaves the settings singleton unchanged — it neither deletes nor
resets it. -/
theorem deleteAllData_clears_records_and_queue (s : AppState) :
    (deleteAllData s).records = [] ∧
    (deleteAllData s).pendingSync = [] ∧
    (deleteAllData s).storedRecords = [] ∧
    (deleteAllData s).storedPending = [] ∧
    (deleteAllData s).settings = s.settings :=
  ⟨rfl, rfl, rfl, rfl, rfl⟩

/-- C10: the payload `updateSettings` upserts to the remote settings
table is independent of the remote credential (`supabaseKey`) and of
`geminiApiKey` — two runs whose current settings differ only in those
two fields emit the same remote payload (and the payload type carries no
such columns at all). -/
theorem updateSettings_payload_credential_free (p : SettingsPatch) (s : AppState)
    (k g : String) :
    (updateSettings p
        { s with settings := { s.settings with supabaseKey := k, geminiApiKey := g } }).2
      = (updateSettings p s).2 := by
  obtain ⟨rec, st, pend, stat, sync, act, init, sr, sp, ss⟩ := s
  obtain ⟨tm, le, gk, wa, mt, su, sk⟩ := st
  by_cases h : stat = SupabaseStatus.connected <;>
    simp [updateSettings, mergeSettings, settingsToSave, h]

/-- C4 counterexample: with the `add` for id `"a"` still queued, a
subsequent `updateRecord` for the same id leaves a queue whose only
entry for that id is an `update`, not an `add`. -/
theorem add_then_update_not_add_cex :
    (addRecord sampleFields "a" initialAppState).pendingSync
      = [PendingSyncOperation.add sampleRecord] ∧
    (updateRecord sampleRecord2 (addRecord sampleFields "a" initialAppState)).pendingSync
      = [PendingSyncOperation.update sampleRecord2] ∧
    ((updateRecord sampleRecord2 (addRecord sampleFields "a" initialAppState)).pendingSync.all
      (fun p => !p.isAdd)) = true :=
  ⟨rfl, rfl, rfl⟩

/-- C4 (amended): for every record id whose `add` is still queued, a
subsequent `updateRecord` for the same id leaves the queue holding
exactly one operation for that id, and that operation is an `update`
carrying the latest field values (the drain sends both `add` and
`update` through the same remote upsert). -/
theorem add_then_update_single_update (s : AppState) (r0 r : LoomRecord)
    (hq : PendingSyncOperation.add r0 ∈ s.pendingSync) (hid : r0.id = r.id) :
    ((updateRecord r s).pendingSync.filter (fun p => p.opId = r.id))
      = [PendingSyncOperation.update r] := by
  have hstep : (updateRecord r s).pendingSync
      = s.pendingSync.filter (fun p => p.opId ≠ r.id) ++ [PendingSyncOperation.update r] := rfl
  rw [hstep, List.filter_append, List.filter_filter]
  have h1 : (s.pendingSync.filter fun p =>
      decide (p.opId = r.id) && decide (p.opId ≠ r.id)) = [] := by
    apply List.filter_eq_nil_iff.mpr
    intro p hp
    by_cases h : p.opId = r.id <;> simp [h]
  rw [h1]
  simp [PendingSyncOperation.opId]

/-- Witness for the amended C4 at a concrete state: the `add` of
`sampleRecord` is queued, and after `updateRecord sampleRecord2` the
queue's only entry for id `"a"` is the update with the new values. -/
theorem add_then_update_single_update_witness :
    PendingSyncOperation.add sampleRecord
        ∈ (addRecord sampleFields "a" initialAppState).pendingSync ∧
    ((updateRecord sampleRecord2 (addRecord sampleFields "a" initialAppState)).pendingSync.filter
        (fun p => p.opId = sampleRecord2.id))
      = [PendingSyncOperation.update sampleRecord2] :=
  ⟨List.Mem.head _,
    add_then_update_single_update _ sampleRecord sampleRecord2 (List.Mem.head _) rfl⟩

/-- C2 counterexample: a realtime update for an id that has a queued
pending operation, arriving while no drain call for it is in flight
(`activeSyncIds` empty), is applied and overwrites the locally held
value — the queued operation of id `"a"` does not protect it. -/
theorem realtime_overwrites_queued_id_cex :
    PendingSyncOperation.update sampleRecord ∈ queuedState.pendingSync ∧
    queuedState.activeSyncIds = [] ∧
    queuedState.records.map LoomRecord.stops = [2] ∧
    (handleRecordsEvent (RealtimeEvent.update sampleRecord2) queuedState).records.map
        LoomRecord.stops = [99] :=
  ⟨List.Mem.head _, rfl, rfl, rfl⟩

/-- C2 (amended): the suppression window is exactly the in-flight set
`activeSyncIds`: a realtime event whose id is in it leaves the state
unchanged, while an event whose id is not in it — even an id with a
queued but not in-flight pending operation — is applied to the records
(the queue itself is never touched by the handler). -/
theorem realtime_suppression_matches_inflight (ev : RealtimeEvent) (s : AppState) :
    (ev.eventId ∈ s.activeSyncIds → handleRecordsEvent ev s = s) ∧
    (ev.eventId ∉ s.activeSyncIds →
      (handleRecordsEvent ev s).records = applyRealtimeEvent ev s.records ∧
      (handleRecordsEvent ev s).pendingSync = s.pendingSync) := by
  constructor
  · intro h; simp [handleRecordsEvent, h]
  · intro h; simp [handleRecordsEvent, h]

/-- Witness for the amended C2: while the drain call for id `"a"` is in
flight, the realtime update for `"a"` is ignored. -/
theorem realtime_suppression_matches_inflight_witness :
    handleRecordsEvent (RealtimeEvent.update sampleRecord2) inflightState = inflightState :=
  (realtime_suppression_matches_inflight (RealtimeEvent.update sampleRecord2)
    inflightState).1 (List.Mem.head _)

/-- C7: a drain started while one is already in progress
(`isSyncing = true`) is a no-op — the state is unchanged and the trace
of remote calls is empty — while `syncOrQueue` appends the new operation
to the queue in every state, drain in progress or not. -/
theorem drain_guard_and_enqueue (f : PendingSyncOperation → ApplyOutcome)
    (op : PendingSyncOperation) (s : AppState) :
    (s.isSyncing = true → processPending f s = (s, [])) ∧
    (syncOrQueue op s).pendingSync
      = s.pendingSync.filter (fun p => p.opId ≠ op.opId) ++ [op] := by
  refine ⟨fun h => ?_, rfl⟩
  simp [processPending, h]

/-- Witness for C7 at a concrete syncing state: the second drain is a
no-op, and a delete for another id is still appended to the queue. -/
theorem drain_guard_and_enqueue_witness :
    syncingState.isSyncing = true ∧
    processPending (fun _ => ApplyOutcome.ok) syncingState = (syncingState, []) ∧
    (syncOrQueue (PendingSyncOperation.delete "b") syncingState).pendingSync
      = [PendingSyncOperation.update sampleRecord, PendingSyncOperation.delete "b"] := by
  have h := drain_guard_and_enqueue (fun _ => ApplyOutcome.ok)
    (PendingSyncOperation.delete "b") syncingState
  exact ⟨rfl, h.1 rfl, h.2.trans rfl⟩

/-- Enqueueing preserves distinctness of the queued record ids:
`syncOrQueue` first removes every operation with the new operation's id
and then appends it. -/
theorem syncOrQueue_opIds_nodup (op : PendingSyncOperation) (s : AppState)
    (h : (s.pendingSync.map PendingSyncOperation.opId).Nodup) :
    ((syncOrQueue op s).pendingSync.map PendingSyncOperation.opId).Nodup := by
  have hstep : (syncOrQueue op s).pendingSync
      = s.pendingSync.filter (fun p => p.opId ≠ op.opId) ++ [op] := rfl
  rw [hstep, List.map_append]
  rw [List.nodup_append]
  refine ⟨?_, List.nodup_singleton _, ?_⟩
  · exact h.sublist ((List.filter_sublist _).map _)
  · intro x hx
    obtain ⟨p, hp, hpx⟩ := List.mem_map.mp hx
    have := (List.mem_filter.mp hp).2
    simp only [decide_eq_true_eq] at this
    simp [hpx ▸ this]

/-- Each mutation-router call preserves distinctness of queued ids. -/
theorem applyCall_opIds_nodup (c : MutationCall) (s : AppState)
    (h : (s.pendingSync.map PendingSyncOperation.opId).Nodup) :
    ((applyCall c s).pendingSync.map PendingSyncOperation.opId).Nodup := by
  cases c with
  | add f freshId => exact syncOrQueue_opIds_nodup _ _ h
  | update r => exact syncOrQueue_opIds_nodup _ _ h
  | delete i => exact syncOrQueue_opIds_nodup _ _ h

/-- C3: after every sequence of `addRecord`, `updateRecord` and
`deleteRecord` calls, the pending queue holds at most one operation per
record id (its list of operation ids has no duplicate), provided the
starting queue already did — in particular from the empty queue. -/
theorem queue_at_most_one_op_per_id (calls : List MutationCall) (s : AppState)
    (h : (s.pendingSync.map PendingSyncOperation.opId).Nodup) :
    ((runCalls calls s).pendingSync.map PendingSyncOperation.opId).Nodup := by
  induction calls generalizing s with
  | nil => exact h
  | cons c rest ih => exact ih (applyCall c s) (applyCall_opIds_nodup c s h)

/-- Witness for C3: an add, an update of the same id and a delete of a
second id leave a queue whose ids are distinct. -/
theorem queue_at_most_one_op_per_id_witness :
    (initialAppState.pendingSync.map PendingSyncOperation.opId).Nodup ∧
    ((runCalls [MutationCall.add sampleFields "a", MutationCall.update sampleRecord2,
        MutationCall.delete "b"] initialAppState).pendingSync.map
      PendingSyncOperation.opId).Nodup :=
  ⟨List.nodup_nil, queue_at_most_one_op_per_id _ initialAppState List.nodup_nil⟩

/-- C6: the mutation router is optimistic and total — for every sequence
of calls, in every connection status: the resulting record list is
exactly the accumulated effect of the calls as the specification words
it (`specRecordEffect`), the persisted copy equals the in-memory list
after every call, and the connection status is never consulted or
changed by the calls. -/
theorem mutation_router_optimistic (calls : List MutationCall) (s : AppState)
    (h : s.storedRecords = s.records) :
    (runCalls calls s).records
      = calls.foldl (fun rs c => specRecordEffect c rs) s.records ∧
    (runCalls calls s).storedRecords = (runCalls calls s).records ∧
    (runCalls calls s).supabaseStatus = s.supabaseStatus := by
  induction calls generalizing s with
  | nil => exact ⟨rfl, h, rfl⟩
  | cons c rest ih =>
    have step1 : (applyCall c s).records = specRecordEffect c s.records := by
      cases c <;> rfl
    have step2 : (applyCall c s).storedRecords = (applyCall c s).records := by
      cases c <;> rfl
    have step3 : (applyCall c s).supabaseStatus = s.supabaseStatus := by
      cases c <;> rfl
    obtain ⟨h1, h2, h3⟩ := ih (applyCall c s) step2
    refine ⟨?_, h2, h3.trans step3⟩
    show (runCalls rest (applyCall c s)).records
      = rest.foldl (fun rs c => specRecordEffect c rs) (specRecordEffect c s.records)
    rw [h1, step1]

/-- Witness for C6: from the initial state, a disconnected add followed
by an update yields exactly the spec fold of the two calls. -/
theorem mutation_router_optimistic_witness :
    initialAppState.storedRecords = initialAppState.records ∧
    (runCalls [MutationCall.add sampleFields "a", MutationCall.update sampleRecord2]
        initialAppState).records
      = [MutationCall.add sampleFields "a", MutationCall.update sampleRecord2].foldl
        (fun rs c => specRecordEffect c rs) initialAppState.records ∧
    (runCalls [MutationCall.add sampleFields "a", MutationCall.update sampleRecord2]
        initialAppState).records = [sampleRecord2] := by
  refine ⟨rfl, (mutation_router_optimistic _ initialAppState rfl).1, rfl⟩

/-- Closed form of the drain loop's `remainingOps`: an op of the initial
`remaining` list survives unless it occurs among the processed ops, its
id is not in `activeSyncIds`, and its remote apply succeeded. -/
theorem processLoop_fst (f : PendingSyncOperation → ApplyOutcome) (a : List String)
    (ops rem : List PendingSyncOperation) :
    (processLoop f a ops rem).1
      = rem.filter (fun x => ¬(x ∈ ops ∧ x.opId ∉ a ∧ f x = ApplyOutcome.ok)) := by
  induction ops generalizing rem with
  | nil => simp [processLoop]
  | cons op rest ih =>
    by_cases ha : op.opId ∈ a
    · rw [show processLoop f a (op :: rest) rem = processLoop f a rest rem from by
        simp [processLoop, ha]]
      rw [ih]
      apply List.filter_congr
      intro x hx
      simp only [decide_eq_decide]
      by_cases hxo : x = op
      · subst hxo; simp [ha]
      · simp [List.mem_cons, hxo]
    · cases hf : f op with
      | ok =>
        rw [show processLoop f a (op :: rest) rem
            = ((processLoop f a rest (rem.filter (fun x => x ≠ op))).1,
               op :: (processLoop f a rest (rem.filter (fun x => x ≠ op))).2) from by
          simp [processLoop, ha, hf]]
        rw [ih, List.filter_filter]
        apply List.filter_congr
        intro x hx
        by_cases hxo : x = op
        · subst hxo; simp [ha, hf]
        · simp [List.mem_cons, hxo]
      | retryableError =>
        rw [show processLoop f a (op :: rest) rem
            = ((processLoop f a rest rem).1, op :: (processLoop f a rest rem).2) from by
          simp [processLoop, ha, hf]]
        rw [ih]
        apply List.filter_congr
        intro x hx
        simp only [decide_eq_decide]
        by_cases hxo : x = op
        · subst hxo; simp [hf]
        · simp [List.mem_cons, hxo]
      | nonRetryableError =>
        rw [show processLoop f a (op :: rest) rem
            = ((processLoop f a rest rem).1, op :: (processLoop f a rest rem).2) from by
          simp [processLoop, ha, hf]]
        rw [ih]
        apply List.filter_congr
        intro x hx
        simp only [decide_eq_decide]
        by_cases hxo : x = op
        · subst hxo; simp [hf]
        · simp [List.mem_cons, hxo]

/-- Trace of the drain loop: one remote call per processed op whose id
is not in `activeSyncIds`, in queue (FIFO) order. -/
theorem processLoop_snd (f : PendingSyncOperation → ApplyOutcome) (a : List String)
    (ops rem : List PendingSyncOperation) :
    (processLoop f a ops rem).2 = ops.filter (fun op => op.opId ∉ a) := by
  induction ops generalizing rem with
  | nil => simp [processLoop]
  | cons op rest ih =>
    by_cases ha : op.opId ∈ a
    · simp [processLoop, ha, ih]
    · cases hf : f op <;> simp [processLoop, ha, hf, ih]

/-- C5 (amended): when no drain is already running, `processPending`
issues one remote call per queued operation whose id is not in flight,
in FIFO order, removes exactly the operations whose call succeeded, and
keeps every operation whose call failed — retryable or not — for the
next drain attempt; no failing operation is dropped. -/
theorem drain_keeps_failures (f : PendingSyncOperation → ApplyOutcome) (s : AppState)
    (h : s.isSyncing = false) :
    (processPending f s).1.pendingSync
      = s.pendingSync.filter
          (fun op => op.opId ∈ s.activeSyncIds ∨ f op ≠ ApplyOutcome.ok) ∧
    (processPending f s).2
      = s.pendingSync.filter (fun op => op.opId ∉ s.activeSyncIds) := by
  by_cases hp : s.pendingSync = []
  · simp [processPending, hp]
  · have hguard : ¬(s.isSyncing = true ∨ s.pendingSync = []) := by simp [h, hp]
    constructor
    · rw [show (processPending f s).1.pendingSync
          = (processLoop f s.activeSyncIds s.pendingSync s.pendingSync).1 from by
        simp [processPending, hguard]]
      rw [processLoop_fst]
      apply List.filter_congr
      intro x hx
      simp only [decide_eq_decide]
      constructor
      · intro hn
        by_cases hact : x.opId ∈ s.activeSyncIds
        · exact Or.inl hact
        · refine Or.inr (fun hok => hn ⟨hx, hact, hok⟩)
      · rintro (hact | hok) ⟨_, hnact, hfok⟩
        · exact hnact hact
        · exact hok hfok
    · rw [show (processPending f s).2
          = (processLoop f s.activeSyncIds s.pendingSync s.pendingSync).2 from by
        simp [processPending, hguard]]
      exact processLoop_snd f s.activeSyncIds s.pendingSync s.pendingSync

/-- Witness for the amended C5: a queued op whose apply fails
non-retryably stays queued after the drain, and the drain attempted it. -/
theorem drain_keeps_failures_witness :
    queuedState.isSyncing = false ∧
    (processPending (fun _ => ApplyOutcome.nonRetryableError) queuedState).1.pendingSync
      = [PendingSyncOperation.update sampleRecord] ∧
    (processPending (fun _ => ApplyOutcome.nonRetryableError) queuedState).2
      = [PendingSyncOperation.update sampleRecord] := by
  have h := drain_keeps_failures (fun _ => ApplyOutcome.nonRetryableError) queuedState rfl
  exact ⟨rfl, h.1.trans rfl, h.2.trans rfl⟩

/-- C5 counterexample: a non-retryable failure is not dropped from the
queue — after a drain in which the only queued op fails non-retryably,
that op is still queued (and a remote call for it was made), while the
claim demands it be removed. -/
theorem nonretryable_op_not_dropped_cex :
    (processPending (fun _ => ApplyOutcome.nonRetryableError) queuedState).1.pendingSync
      = [PendingSyncOperation.update sampleRecord] ∧
    (processPending (fun _ => ApplyOutcome.nonRetryableError) queuedState).1.pendingSync ≠ [] :=
  ⟨rfl, fun h => List.cons_ne_nil _ _ h⟩

/-- C8: a failed connection attempt terminates in `disconnected`: if the
initial settings fetch fails (with any code other than `PGRST116`, the
row-absent code), or the initial records fetch fails, or the realtime
subscription setup fails (its callback reports an error), the attempt
ends with the status set to `disconnected` — the system is not left in
`reconnecting`, and the single-pass attempt performs no retry. -/
theorem failed_attempt_ends_disconnected (settingsRes : SettingsFetchResult)
    (recordsRes : Except Unit (List LoomRecord)) (f : PendingSyncOperation → ApplyOutcome)
    (subErr : Bool) (s : AppState)
    (hinit : s.initialDataFetched = false)
    (hfail : (∃ c, settingsRes = SettingsFetchResult.err c ∧ c ≠ "PGRST116")
      ∨ recordsRes = Except.error ()
      ∨ subErr = true) :
    (setupSubscriptions settingsRes recordsRes f subErr s).supabaseStatus
      = SupabaseStatus.disconnected ∧
    (setupSubscriptions settingsRes recordsRes f subErr s).supabaseStatus
      ≠ SupabaseStatus.reconnecting := by
  have hmain : (setupSubscriptions settingsRes recordsRes f subErr s).supabaseStatus
      = SupabaseStatus.disconnected := by
    rcases hfail with ⟨c, hc, hne⟩ | hrec | hsub
    · subst hc
      simp [setupSubscriptions, hinit, hne]
    · subst hrec
      cases settingsRes with
      | err c =>
        by_cases hc : c = "PGRST116"
        · simp [setupSubscriptions, hinit, hc, setupFetchRecords]
        · simp [setupSubscriptions, hinit, hc]
      | ok data =>
        cases data with
        | none => simp [setupSubscriptions, hinit, setupFetchRecords]
        | some row => simp [setupSubscriptions, hinit, setupFetchRecords]
    · subst hsub
      cases settingsRes with
      | err c =>
        by_cases hc : c = "PGRST116"
        · cases recordsRes <;>
            simp [setupSubscriptions, hinit, hc, setupFetchRecords, setupAfterFetch]
        · simp [setupSubscriptions, hinit, hc]
      | ok data =>
        cases data <;> cases recordsRes <;>
          simp [setupSubscriptions, hinit, setupFetchRecords, setupAfterFetch]
  exact ⟨hmain, by simp [hmain]⟩

/-- Witness for C8: on a fresh state, a settings fetch error with code
500 ends the attempt in `disconnected`, and so does a subscription
failure after successful fetches. -/
theorem failed_attempt_ends_disconnected_witness :
    initialAppState.initialDataFetched = false ∧
    (setupSubscriptions (SettingsFetchResult.err "500") (Except.ok [])
        (fun _ => ApplyOutcome.ok) false initialAppState).supabaseStatus
      = SupabaseStatus.disconnected ∧
    (setupSubscriptions (SettingsFetchResult.ok none) (Except.ok [])
        (fun _ => ApplyOutcome.ok) true initialAppState).supabaseStatus
      = SupabaseStatus.disconnected :=
  ⟨rfl,
    (failed_attempt_ends_disconnected (SettingsFetchResult.err "500") (Except.ok [])
      (fun _ => ApplyOutcome.ok) false initialAppState rfl
      (Or.inl ⟨"500", rfl, by decide⟩)).1,
    (failed_attempt_ends_disconnected (SettingsFetchResult.ok none) (Except.ok [])
      (fun _ => ApplyOutcome.ok) true initialAppState rfl
      (Or.inr (Or.inr rfl))).1⟩

/-- Overwriting in place keeps the list of ids unchanged. -/
theorem map_replace_ids (r : LoomRecord) (m : List LoomRecord) :
    (m.map (fun x => if x.id = r.id then r else x)).map LoomRecord.id
      = m.map LoomRecord.id := by
  induction m with
  | nil => rfl
  | cons x xs ih =>
    by_cases hx : x.id = r.id <;> simp [hx, ih]

/-- Searching the overwritten key finds the new record. -/
theorem map_replace_find (r : LoomRecord) (m : List LoomRecord)
    (h : m.any (fun x => x.id = r.id) = true) :
    (m.map (fun x => if x.id = r.id then r else x)).find? (fun x => x.id = r.id)
      = some r := by
  induction m with
  | nil => simp at h
  | cons x xs ih =>
    by_cases hx : x.id = r.id
    · simp [List.find?, hx]
    · have h' : xs.any (fun x => x.id = r.id) = true := by
        simpa [List.any_cons, hx] using h
      simp [List.find?, hx, ih h']

/-- Searching a different key is unaffected by the overwrite. -/
theorem map_replace_find_other (r : LoomRecord) (k : String) (hk : k ≠ r.id)
    (m : List LoomRecord) :
    (m.map (fun x => if x.id = r.id then r else x)).find? (fun x => x.id = k)
      = m.find? (fun x => x.id = k) := by
  induction m with
  | nil => rfl
  | cons x xs ih =>
    rw [List.map_cons]
    by_cases hx : x.id = r.id
    · rw [if_pos hx]
      simp [List.find?, hx, Ne.symm hk, ih]
    · rw [if_neg hx]
      by_cases hxk : x.id = k
      · simp [List.find?, hxk]
      · simp [List.find?, hxk, ih]

/-- Map-insert finds its own key. -/
theorem find?_mapInsert_self (m : List LoomRecord) (r : LoomRecord) :
    (mapInsert m r).find? (fun x => x.id = r.id) = some r := by
  unfold mapInsert
  by_cases h : m.any (fun x => x.id = r.id) = true
  · rw [if_pos h]; exact map_replace_find r m h
  · rw [if_neg h, List.find?_append]
    have hnone : m.find? (fun x => x.id = r.id) = none := by
      rw [List.find?_eq_none]
      intro x hx
      simp only [decide_eq_true_eq]
      intro he
      exact h (List.any_eq_true.mpr ⟨x, hx, by simp [he]⟩)
    simp [hnone, List.find?]

/-- Map-insert leaves other keys' lookups unchanged. -/
theorem find?_mapInsert_other (m : List LoomRecord) (r : LoomRecord) (k : String)
    (hk : k ≠ r.id) :
    (mapInsert m r).find? (fun x => x.id = k) = m.find? (fun x => x.id = k) := by
  unfold mapInsert
  by_cases h : m.any (fun x => x.id = r.id) = true
  · rw [if_pos h]; exact map_replace_find_other r k hk m
  · rw [if_neg h, List.find?_append]
    have hone : ([r].find? fun x => x.id = k) = none := by
      simp [List.find?, Ne.symm hk]
    cases hm : m.find? (fun x => x.id = k) <;> simp [hone]

/-- Lookup after replaying a list of entries through `mapInsert`: the
last replayed entry with the key wins; otherwise the accumulator's
lookup stands. -/
theorem find?_foldl_mapInsert (k : String) (es : List LoomRecord) (acc : List LoomRecord) :
    (es.foldl mapInsert acc).find? (fun x => x.id = k)
      = match es.reverse.find? (fun x => x.id = k) with
        | some e => some e
        | none => acc.find? (fun x => x.id = k) := by
  induction es generalizing acc with
  | nil => simp
  | cons e es ih =>
    rw [List.foldl_cons, ih, List.reverse_cons, List.find?_append]
    by_cases he : e.id = k
    · cases hes : es.reverse.find? (fun x => x.id = k) with
      | some y => simp [hes]
      | none =>
        subst he
        simp [hes, List.find?, find?_mapInsert_self]
    · have hone : ([e].find? fun x => x.id = k) = none := by
        simp [List.find?, he]
      cases hes : es.reverse.find? (fun x => x.id = k) with
      | some y => simp [hes, hone]
      | none => simp [hes, hone, find?_mapInsert_other acc e k (Ne.symm he)]

/-- Map-insert only grows the set of ids: an id present before is
present after, and the inserted record's id is present after. -/
theorem mapInsert_ids_mem (m : List LoomRecord) (r : LoomRecord) (k : String)
    (h : k ∈ m.map LoomRecord.id ∨ k = r.id) :
    k ∈ (mapInsert m r).map LoomRecord.id := by
  unfold mapInsert
  by_cases ha : m.any (fun x => x.id = r.id) = true
  · rw [if_pos ha, map_replace_ids]
    rcases h with h | h
    · exact h
    · subst h
      obtain ⟨x, hx, hid⟩ := List.any_eq_true.mp ha
      simp only [decide_eq_true_eq] at hid
      exact List.mem_map.mpr ⟨x, hx, hid⟩
  · rw [if_neg ha]
    rcases h with h | h
    · simp [h]
    · simp [h]

/-- Replaying entries through `mapInsert` keeps every id of the
accumulator and of the entries. -/
theorem foldl_mapInsert_ids_mem (es : List LoomRecord) :
    ∀ (acc : List LoomRecord) (k : String),
      (k ∈ acc.map LoomRecord.id ∨ k ∈ es.map LoomRecord.id) →
      k ∈ (es.foldl mapInsert acc).map LoomRecord.id := by
  induction es with
  | nil =>
    intro acc k h
    simpa using h
  | cons e es ih =>
    intro acc k h
    rw [List.foldl_cons]
    rcases h with h | h
    · exact ih _ k (Or.inl (mapInsert_ids_mem _ _ _ (Or.inl h)))
    · rw [List.map_cons, List.mem_cons] at h
      rcases h with h | h
      · exact ih _ k (Or.inl (mapInsert_ids_mem _ _ _ (Or.inr h)))
      · exact ih _ k (Or.inr h)

/-- Map-insert preserves distinctness of ids. -/
theorem mapInsert_ids_nodup (m : List LoomRecord) (r : LoomRecord)
    (h : (m.map LoomRecord.id).Nodup) :
    ((mapInsert m r).map LoomRecord.id).Nodup := by
  unfold mapInsert
  by_cases ha : m.any (fun x => x.id = r.id) = true
  · rw [if_pos ha, map_replace_ids]; exact h
  · rw [if_neg ha]
    have hnm : r.id ∉ m.map LoomRecord.id := by
      intro hmem
      obtain ⟨x, hx, hid⟩ := List.mem_map.mp hmem
      exact ha (List.any_eq_true.mpr ⟨x, hx, by simp [hid]⟩)
    simp [List.nodup_append, h, hnm]

/-- Replaying entries through `mapInsert` preserves distinctness of the
accumulator's ids. -/
theorem foldl_mapInsert_ids_nodup (es : List LoomRecord) :
    ∀ acc : List LoomRecord, (acc.map LoomRecord.id).Nodup →
      ((es.foldl mapInsert acc).map LoomRecord.id).Nodup := by
  induction es with
  | nil => intro acc h; exact h
  | cons e es ih => intro acc h; exact ih _ (mapInsert_ids_nodup _ _ h)

/-- On a list whose ids are already distinct, replaying through
`mapInsert` appends every entry and changes nothing. -/
theorem foldl_mapInsert_eq_append (es : List LoomRecord) :
    ∀ acc : List LoomRecord, ((acc ++ es).map LoomRecord.id).Nodup →
      es.foldl mapInsert acc = acc ++ es := by
  induction es with
  | nil => intro acc _; simp
  | cons e es ih =>
    intro acc h
    have hnm : e.id ∉ acc.map LoomRecord.id := by
      intro hmem
      rw [List.map_append, List.nodup_append] at h
      exact h.2.2 hmem (by simp)
    have hins : mapInsert acc e = acc ++ [e] := by
      unfold mapInsert
      rw [if_neg]
      intro hany
      obtain ⟨x, hx, hid⟩ := List.any_eq_true.mp hany
      simp only [decide_eq_true_eq] at hid
      exact hnm (List.mem_map.mpr ⟨x, hx, hid⟩)
    rw [List.foldl_cons, hins, ih (acc ++ [e]) (by simpa using h)]
    simp

/-- On a list with distinct ids, a member is found by its id. -/
theorem nodup_find?_eq (rs : List LoomRecord) (r : LoomRecord)
    (h : (rs.map LoomRecord.id).Nodup) (hmem : r ∈ rs) :
    rs.find? (fun x => x.id = r.id) = some r := by
  induction rs with
  | nil => cases hmem
  | cons x xs ih =>
    rcases List.mem_cons.mp hmem with rfl | hmem'
    · simp [List.find?]
    · rw [List.map_cons] at h
      have hx : x.id ≠ r.id := by
        intro he
        have : r.id ∈ xs.map LoomRecord.id := List.mem_map.mpr ⟨r, hmem', rfl⟩
        exact (List.nodup_cons.mp h).1 (he ▸ this)
      simp [List.find?, hx, ih (List.nodup_cons.mp h).2 hmem']

/-- C1: the initial merge is remote-wins with local-only retention.  For
record sets (distinct ids) `L` and `R`: the merged working set has
distinct ids; every id present in `R` resolves to exactly `R`'s record
(remote wins, also when the id is present in `L`); every id present only
in `L` resolves to `L`'s record; and no id of either side is lost. -/
theorem initial_merge_remote_wins (L R : List LoomRecord)
    (hL : (L.map LoomRecord.id).Nodup) (hR : (R.map LoomRecord.id).Nodup) :
    ((mergeRecords L R).map LoomRecord.id).Nodup ∧
    (∀ r ∈ R, (mergeRecords L R).find? (fun x => x.id = r.id) = some r) ∧
    (∀ l ∈ L, (∀ r ∈ R, r.id ≠ l.id) →
      (mergeRecords L R).find? (fun x => x.id = l.id) = some l) ∧
    (∀ x ∈ L ++ R, ∃ y ∈ mergeRecords L R, y.id = x.id) := by
  have hLs : jsMapOf L = L := foldl_mapInsert_eq_append L [] (by simpa using hL)
  have hRs : jsMapOf R = R := foldl_mapInsert_eq_append R [] (by simpa using hR)
  have hm : mergeRecords L R = (L ++ R).foldl mapInsert [] := by
    rw [mergeRecords, hLs, hRs]; rfl
  have hRrev : (R.reverse.map LoomRecord.id).Nodup := by
    rw [List.map_reverse]; exact List.nodup_reverse.mpr hR
  have hLrev : (L.reverse.map LoomRecord.id).Nodup := by
    rw [List.map_reverse]; exact List.nodup_reverse.mpr hL
  refine ⟨?_, ?_, ?_, ?_⟩
  · rw [hm]
    exact foldl_mapInsert_ids_nodup _ [] (by simp)
  · intro r hr
    rw [hm, find?_foldl_mapInsert, List.reverse_append, List.find?_append]
    have h1 : R.reverse.find? (fun x => x.id = r.id) = some r :=
      nodup_find?_eq R.reverse r hRrev (List.mem_reverse.mpr hr)
    simp [h1]
  · intro l hl hnr
    rw [hm, find?_foldl_mapInsert, List.reverse_append, List.find?_append]
    have h1 : R.reverse.find? (fun x => x.id = l.id) = none := by
      rw [List.find?_eq_none]
      intro x hx
      simp only [decide_eq_true_eq]
      exact hnr x (List.mem_reverse.mp hx)
    have h2 : L.reverse.find? (fun x => x.id = l.id) = some l :=
      nodup_find?_eq L.reverse l hLrev (List.mem_reverse.mpr hl)
    simp [h1, h2]
  · intro x hx
    have hid : x.id ∈ ((L ++ R).foldl mapInsert []).map LoomRecord.id :=
      foldl_mapInsert_ids_mem _ [] x.id (Or.inr (List.mem_map.mpr ⟨x, hx, rfl⟩))
    rw [hm]
    obtain ⟨y, hy, hyid⟩ := List.mem_map.mp hid
    exact ⟨y, hy, hyid⟩

/-- Witness for C1 on concrete sets: local `[a, b]`, remote `[a']` with
different contents for `a` — after the merge, id `a` resolves to the
remote version and the local-only id `b` is retained. -/
theorem initial_merge_remote_wins_witness :
    ([sampleRecord, sampleRecordB].map LoomRecord.id).Nodup ∧
    ([sampleRecord2].map LoomRecord.id).Nodup ∧
    (mergeRecords [sampleRecord, sampleRecordB] [sampleRecord2]).find?
        (fun x => x.id = sampleRecord2.id) = some sampleRecord2 ∧
    (mergeRecords [sampleRecord, sampleRecordB] [sampleRecord2]).find?
        (fun x => x.id = sampleRecordB.id) = some sampleRecordB := by
  have h := initial_merge_remote_wins [sampleRecord, sampleRecordB] [sampleRecord2]
    (by decide) (by decide)
  refine ⟨by decide, by decide, h.2.1 sampleRecord2 (List.Mem.head _),
    h.2.2.1 sampleRecordB (List.Mem.tail _ (List.Mem.head _)) (by decide)⟩

end LaxmiShree
